import Mathlib

/-!
Verification of the training-step engine in ml/rl/training/_dqn_trainer.py
(class _DQNTrainer).  The tensor arithmetic is embedded shallowly over ℚ:
a batch is a list of samples, a per-action value vector is a List ℚ, and
the four networks are represented by their parameter lists together with
black-box forward / optimizer-step functions (the spec treats the value
networks and optimizers as external collaborators with a purely numeric
contract).  Methods that mutate the trainer object are embedded as
functions returning the updated trainer state.
-/

namespace HorizonDQN

/-- Dot product of two rational vectors, the embedding of
torch.sum(a * b, 1) on a pair of per-sample rows. -/
def dotList (a b : List ℚ) : ℚ :=
  (List.zipWith (· * ·) a b).sum

/-- One-hot vector of width n with the 1 at index i. -/
def oneHot : ℕ → ℕ → List ℚ
  | 0, _ => []
  | n + 1, 0 => 1 :: List.replicate n 0
  | n + 1, i + 1 => 0 :: oneHot n i

/-- Tail worker for argmaxList: scans the remaining entries, keeping the
index bi and value bv of the best entry seen so far; a later entry wins
only if strictly greater, so ties resolve to the earliest index. -/
def argmaxAux : List ℚ → ℕ → ℕ → ℚ → ℕ
  | [], _, bi, _ => bi
  | x :: xs, j, bi, bv =>
    if bv < x then argmaxAux xs (j + 1) j x else argmaxAux xs (j + 1) bi bv

/-- Index of the first maximal entry of a row; the embedding of
tensor.argmax(dim=1) on one sample (0 on an empty row). -/
def argmaxList : List ℚ → ℕ
  | [] => 0
  | x :: xs => argmaxAux xs 1 0 x

/-- Worker for the masked argmax: walks the value row and the mask row in
step, considering only positions whose mask entry is positive, and keeps
the index and value of the best valid entry seen so far (earliest index
on ties). -/
def maskedArgmaxAux : List ℚ → List ℚ → ℕ → Option (ℕ × ℚ) → Option (ℕ × ℚ)
  | v :: vs, m :: ms, j, best =>
    if 0 < m then
      match best with
      | none => maskedArgmaxAux vs ms (j + 1) (some (j, v))
      | some (bi, bv) =>
        if bv < v then maskedArgmaxAux vs ms (j + 1) (some (j, v))
        else maskedArgmaxAux vs ms (j + 1) (some (bi, bv))
    else maskedArgmaxAux vs ms (j + 1) best
  | _, _, _, best => best

/-- Modelled from the spec: DQNTrainerBase.get_max_q_values_with_target is
not under src/, only its call sites are.  Per spec section 4.2 it restricts
the online next-state values to the entries allowed by the validity mask
(invalid entries treated as unreachable), picks the maximizing index from
the online estimates, and reads the value at that same index from the
target estimates.  A row whose mask allows no action is a precondition
violation, rendered here as none. -/
def get_max_q_values_with_target (qValues qValuesTarget possibleActionsMask : List ℚ) :
    Option (ℚ × ℕ) :=
  match maskedArgmaxAux qValues possibleActionsMask 0 none with
  | none => none
  | some (bi, _) => some (qValuesTarget.getD bi 0, bi)

/-- The on-policy selector exactly as the spec words it (section 4.2,
on-policy mode): the value is the inner product of the target-network value
vector with the supplied next-action one-hot, and the action index is the
argmax of that one-hot. -/
def onPolicySpecValue (qValuesTarget nextAction : List ℚ) : ℚ × ℕ :=
  (dotList qValuesTarget nextAction, argmaxList nextAction)

/-- Modelled from the spec: RLTrainer._soft_update is not under src/, only
its call sites are.  Per spec section 4.4 each target parameter becomes
target_param * (1 - tau) + online_param * tau. -/
def _soft_update (onlineParams targetParams : List ℚ) (tau : ℚ) : List ℚ :=
  List.zipWith (fun op tp => tp * (1 - tau) + op * tau) onlineParams targetParams

/-- Modelled from the spec: ml.rl.caffe_utils.masked_softmax is not under
src/.  Per spec sections 4.5 and 6 it masks out invalid actions per the
validity mask, applies a temperature-scaled normalized exponential over the
valid entries only, and puts zero probability mass on invalid entries.  The
exponential is the black-box math-runtime primitive, passed in as a
strictly positive function. -/
def maskedSoftmax (expf : ℚ → ℚ) (vals mask : List ℚ) (temperature : ℚ) : List ℚ :=
  let weights := List.zipWith (fun v m => m * expf (v / temperature)) vals mask
  weights.map (· / weights.sum)

/-- Modelled from the spec: RLTrainer.boost_rewards is not under src/, only
its call site is.  Per spec section 4.1, given the raw per-sample reward and
the one-hot action taken it returns reward + boost[action] elementwise,
i.e. the reward plus the inner product of the static boost vector with the
one-hot action. -/
def boost_rewards (rewardBoosts : List ℚ) (reward : ℚ) (action : List ℚ) : ℚ :=
  reward + dotList rewardBoosts action

/-- Embedding of list.index used at _dqn_trainer.py line 75: the index of
the first occurrence of the key, or none (a raised ValueError) if the key
is absent from the action list. -/
def indexOfAction : List String → String → Option ℕ
  | [], _ => none
  | a :: rest, k => if a = k then some 0 else (indexOfAction rest k).map (· + 1)

/-- Embedding of the reward-boost construction loop of _DQNTrainer.__init__
(lines 72-76): starting from a zero vector over the action set, each
configured (action, boost) entry is written at that action's index; a key
absent from the action list raises, rendered as Except.error. -/
def computeRewardBoosts (actions : List String) (acc : List ℚ) :
    List (String × ℚ) → Except String (List ℚ)
  | [] => .ok acc
  | (k, v) :: rest =>
    match indexOfAction actions k with
    | none => .error ("is not in list: " ++ k)
    | some i => computeRewardBoosts actions (acc.set i v) rest

/-- One transition of the discrete-SARSA training batch: the aligned
per-sample tensors of _dqn_trainer.py (training_input fields plus the
extras group). -/
structure Sample where
  state : ℚ
  action : List ℚ
  reward : ℚ
  nextState : ℚ
  nextAction : List ℚ
  notTerminal : ℚ
  possibleActionsMask : List ℚ
  possibleNextActionsMask : List ℚ
  metrics : Option (List ℚ)
  actionProbability : ℚ
deriving Inhabited, DecidableEq

/-- The configuration read by _DQNTrainer from DiscreteActionModelParameters:
action set, discount gamma, soft-update rate tau, reward burn-in count, the
max-q vs on-policy mode flag, the CPE flag, the softmax temperature, the
number of scored metrics, and the optional reward-boost mapping. -/
structure Config where
  actions : List String
  gamma : ℚ
  tau : ℚ
  rewardBurnin : ℕ
  maxqLearning : Bool
  calcCpe : Bool
  rlTemperature : ℚ
  numMetrics : ℕ
  rewardBoost : List (String × ℚ)
deriving Inhabited

/-- The black-box collaborators of spec section 6: the network forward
passes (a parameter list and a state produce a value row), the optimizer
steps (old parameters plus the loss inputs produce new parameters; gradient
math is outside the numeric contract), and the exponential primitive used
by the masked softmax. -/
structure Backend where
  forward : List ℚ → ℚ → List ℚ
  cpeForward : List ℚ → ℚ → List ℚ
  qOptStep : List ℚ → List ℚ → List ℚ
  rewardOptStep : List ℚ → List ℚ → List ℚ
  cpeOptStep : List ℚ → List ℚ → List ℚ
  expf : ℚ → ℚ

/-- The mutable attributes of a _DQNTrainer object that the training step
reads and writes: the step counter, the five parameter lists, the static
reward-boost vector, and the detached current-state action-value snapshot
self.all_action_scores. -/
structure TrainerState where
  minibatch : ℕ
  qParams : List ℚ
  qTargetParams : List ℚ
  rewardParams : List ℚ
  cpeParams : List ℚ
  cpeTargetParams : List ℚ
  rewardBoosts : List ℚ
  allActionScores : List (List ℚ)
deriving Inhabited, DecidableEq

/-- CPE network presence check of _DQNTrainer.__init__ lines 53-61: when
CPE is enabled the reward network must be supplied, and so must the CPE
value network and the CPE target network. -/
def checkCpeNetworks (cfg : Config) (rewardP cpeP cpeTargetP : Option (List ℚ)) :
    Except String Unit :=
  if cfg.calcCpe then
    match rewardP with
    | none => .error "reward_network is required for CPE"
    | some _ =>
      match cpeP, cpeTargetP with
      | some _, some _ => .ok ()
      | _, _ => .error "q_network_cpe and q_network_cpe_target are required for CPE"
  else .ok ()

/-- Embedding of _DQNTrainer.__init__: validates the CPE network
configuration, then builds the reward-boost vector (each step can raise,
rendered as Except.error), and produces the initial trainer state with the
step counter at zero. -/
def initTrainer (cfg : Config) (qP qTP : List ℚ)
    (rewardP cpeP cpeTargetP : Option (List ℚ)) : Except String TrainerState :=
  match checkCpeNetworks cfg rewardP cpeP cpeTargetP with
  | .error e => .error e
  | .ok _ =>
    match computeRewardBoosts cfg.actions (List.replicate cfg.actions.length 0)
        cfg.rewardBoost with
    | .error e => .error e
    | .ok boosts =>
      .ok { minibatch := 0, qParams := qP, qTargetParams := qTP,
            rewardParams := rewardP.getD [], cpeParams := cpeP.getD [],
            cpeTargetParams := cpeTargetP.getD [],
            rewardBoosts := boosts, allActionScores := [] }

/-- Embedding of _DQNTrainer.get_detached_q_values: the online and target
value rows for every state of the batch, computed without gradient. -/
def get_detached_q_values (be : Backend) (qParams qTargetParams : List ℚ)
    (states : List ℚ) : List (List ℚ) × List (List ℚ) :=
  (states.map (be.forward qParams), states.map (be.forward qTargetParams))

/-- Embedding of the target construction of _DQNTrainer.train lines 130-135:
the next-state values are zeroed for terminal transitions, and the target is
the shaped reward alone while the step counter is below the burn-in
threshold, and shaped reward plus discounted filtered next-state value
otherwise. -/
def target_q_values (mb burnin : ℕ) (gamma : ℚ)
    (rewards nextQValues notDoneMask : List ℚ) : List ℚ :=
  let filteredNextQVals := List.zipWith (· * ·) nextQValues notDoneMask
  if mb < burnin then rewards
  else List.zipWith (fun r f => r + gamma * f) rewards filteredNextQVals

/-- Embedding of self.reward_idx_offsets (__init__ lines 67-70):
torch.arange(0, numMetrics * numActions, numActions), one block offset per
scored metric. -/
def rewardIdxOffsets (numActions numMetrics : ℕ) : List ℕ :=
  (List.range numMetrics).map (· * numActions)

/-- Per-sample gather of calculate_cpes: reads one scalar per metric from a
concatenated per-metric row, at block offset plus the given action index. -/
def gatherAtOffsets (numActions numMetrics : ℕ) (row : List ℚ) (idx : ℕ) : List ℚ :=
  (rewardIdxOffsets numActions numMetrics).map (fun o => row.getD (o + idx) 0)

/-- Embedding of the multi-metric reward tensor of calculate_cpes lines
200-206: the raw reward column alone when the batch carries no extra
metrics, else the reward column concatenated with the metric columns. -/
def metricsConcatOf (s : Sample) : List ℚ :=
  match s.metrics with
  | none => [s.reward]
  | some ms => s.reward :: ms

/-- Embedding of F.mse_loss with mean reduction: the mean of the squared
elementwise differences. -/
def mseLoss (a b : List (List ℚ)) : ℚ :=
  let diffs := (List.zipWith (List.zipWith (fun x y => (x - y) ^ 2)) a b).flatten
  diffs.sum / diffs.length

/-- Embedding of the per-metric target construction of calculate_cpes lines
226-235: gather the CPE target-network row at block offset plus the single
selected next-action index (the same index for every metric), zero the
gathered values for terminal transitions, and apply the burn-in-aware
blending of the multi-metric rewards with the discounted gathered values. -/
def cpeMetricTargets (mb burnin : ℕ) (discount : ℚ) (numActions numMetrics : ℕ)
    (metricsRewardConcat metricTargetQValues : List (List ℚ))
    (maxQActionIdxs : List ℕ) (notDoneMask : List ℚ) : List (List ℚ) :=
  let maxQValuesMetrics :=
    List.zipWith (gatherAtOffsets numActions numMetrics) metricTargetQValues maxQActionIdxs
  let filteredMaxQValuesMetrics :=
    List.zipWith (fun row nd => row.map (· * nd)) maxQValuesMetrics notDoneMask
  if mb < burnin then metricsRewardConcat
  else List.zipWith (List.zipWith (fun r f => r + discount * f))
    metricsRewardConcat filteredMaxQValuesMetrics

/-- The validity mask the propensity computation applies per sample
(calculate_cpes lines 250-256): possible_actions_mask in max-action mode,
the taken-action one-hot in on-policy mode. -/
def validityMask (cfg : Config) (s : Sample) : List ℚ :=
  if cfg.maxqLearning then s.possibleActionsMask else s.action

/-- The triple returned by calculate_cpes: reward-model loss, per-sample
model-predicted reward rows, per-sample model-propensity rows. -/
abbrev CpeTriple :=
  Option ℚ × Option (List (List ℚ)) × Option (List (List ℚ))

/-- Embedding of _DQNTrainer.calculate_cpes.  With CPE disabled it returns
(none, none, none) and an unchanged trainer state.  Otherwise it trains the
reward network against the multi-metric reward tensor, trains the CPE value
network toward the burn-in-aware per-metric targets built from the CPE
target network at the selected next-action index, soft-updates the CPE
target network under the same burn-in tau rule as the primary pair, and
derives propensities as a masked softmax of the stored detached
current-state action values under the mode-appropriate validity mask.
Gradient computation inside the three optimizer steps is the black-box
optimizer collaborator of the Backend. -/
def calculate_cpes (cfg : Config) (be : Backend) (st : TrainerState)
    (batch : List Sample) (loggedActionIdxs maxQActionIdxs : List ℕ)
    (discount : ℚ) (notDoneMask : List ℚ) : CpeTriple × TrainerState :=
  if ¬ cfg.calcCpe then ((none, none, none), st)
  else
    let numActions := cfg.actions.length
    let metricsRewardConcat := batch.map metricsConcatOf
    let rewardEstimates := batch.map (fun s => be.cpeForward st.rewardParams s.state)
    let rewardEstimatesLogged :=
      List.zipWith (gatherAtOffsets numActions cfg.numMetrics)
        rewardEstimates loggedActionIdxs
    let rewardLoss := mseLoss rewardEstimatesLogged metricsRewardConcat
    let rewardParamsNew := be.rewardOptStep st.rewardParams metricsRewardConcat.flatten
    let targetMetricQValues :=
      cpeMetricTargets st.minibatch cfg.rewardBurnin discount numActions cfg.numMetrics
        metricsRewardConcat
        (batch.map (fun s => be.cpeForward st.cpeTargetParams s.state))
        maxQActionIdxs notDoneMask
    let cpeParamsNew := be.cpeOptStep st.cpeParams targetMetricQValues.flatten
    let cpeTargetParamsNew := _soft_update cpeParamsNew st.cpeTargetParams
      (if st.minibatch < cfg.rewardBurnin then 1 else cfg.tau)
    let modelPropensities :=
      List.zipWith
        (fun scores s => maskedSoftmax be.expf scores (validityMask cfg s)
          cfg.rlTemperature)
        st.allActionScores batch
    let offset0 := (rewardIdxOffsets numActions cfg.numMetrics).getD 0 0
    let modelRewards :=
      rewardEstimates.map (fun row => (List.range numActions).map
        (fun j => row.getD (offset0 + j) 0))
    ((some rewardLoss, some modelRewards, some modelPropensities),
     { st with
        rewardParams := rewardParamsNew
        cpeParams := cpeParamsNew
        cpeTargetParams := cpeTargetParamsNew })

/-- Embedding of the body of _DQNTrainer.train on an already-converted
batch (lines 96-186): boost the rewards, advance the step counter, select
the next-state value and action index through
get_max_q_values_with_target (mask in max-q mode, supplied next action in
on-policy mode), build the burn-in-aware target, snapshot the detached
current-state action values from the online network, take the optimizer
step, soft-update the target network with tau forced to 1 during burn-in,
and run the CPE sub-training on the updated state. -/
def trainBatch (cfg : Config) (be : Backend) (st : TrainerState)
    (batch : List Sample) : TrainerState × CpeTriple :=
  let boostedRewards := batch.map (fun s => boost_rewards st.rewardBoosts s.reward s.action)
  let minibatchNew := st.minibatch + 1
  let rewards := boostedRewards
  let notDoneMask := batch.map (fun s => s.notTerminal)
  let nextQ := get_detached_q_values be st.qParams st.qTargetParams
    (batch.map (fun s => s.nextState))
  let selectionMasks := batch.map
    (fun s => if cfg.maxqLearning then s.possibleNextActionsMask else s.nextAction)
  let selections :=
    List.zipWith
      (fun ot mask => (get_max_q_values_with_target ot.1 ot.2 mask).getD (0, 0))
      (List.zipWith Prod.mk nextQ.1 nextQ.2) selectionMasks
  let nextQValues := selections.map Prod.fst
  let maxQActionIdxs := selections.map Prod.snd
  let targetQValues :=
    target_q_values minibatchNew cfg.rewardBurnin cfg.gamma rewards nextQValues notDoneMask
  let allQValues := batch.map (fun s => be.forward st.qParams s.state)
  let qParamsNew := be.qOptStep st.qParams targetQValues
  let qTargetParamsNew := _soft_update qParamsNew st.qTargetParams
    (if minibatchNew < cfg.rewardBurnin then 1 else cfg.tau)
  let loggedActionIdxs := batch.map (fun s => argmaxList s.action)
  let st1 := { st with
    minibatch := minibatchNew
    qParams := qParamsNew
    qTargetParams := qTargetParamsNew
    allActionScores := allQValues }
  let r := calculate_cpes cfg be st1 batch loggedActionIdxs maxQActionIdxs
    cfg.gamma notDoneMask
  (r.2, r.1)

/-- The argument of _DQNTrainer.train: either a raw TrainingDataPage (an
arbitrary page type, since training_data_page.py is not under src/) or an
already-converted discrete-SARSA batch. -/
inductive TrainInput (page : Type) where
  | page (p : page)
  | batch (b : List Sample)

/-- Embedding of the _DQNTrainer.train entry point (lines 92-94): a
TrainingDataPage is first converted through as_discrete_sarsa_training_batch
(modelled from the spec as an abstract conversion function, since
training_data_page.py is not under src/), and then the single training-step
body runs on the converted batch. -/
def train {page : Type} (asDiscreteSarsaTrainingBatch : page → List Sample)
    (cfg : Config) (be : Backend) (st : TrainerState) :
    TrainInput page → TrainerState × CpeTriple
  | .page p => trainBatch cfg be st (asDiscreteSarsaTrainingBatch p)
  | .batch b => trainBatch cfg be st b

/-! General pointwise lemmas about the list combinators used by the
tensor pipelines. -/

theorem getD_zipWith {α β δ : Type} (f : α → β → δ) (a : List α) (b : List β)
    (i : ℕ) (da : α) (db : β) (dc : δ) (ha : i < a.length) (hb : i < b.length) :
    (List.zipWith f a b).getD i dc = f (a.getD i da) (b.getD i db) := by
  have hz : i < (List.zipWith f a b).length := by
    rw [List.length_zipWith]; omega
  rw [List.getD_eq_getElem _ _ hz, List.getD_eq_getElem _ _ ha,
    List.getD_eq_getElem _ _ hb, List.getElem_zipWith]

theorem getD_map {α β : Type} (f : α → β) (l : List α) (i : ℕ) (da : α) (db : β)
    (h : i < l.length) : (l.map f).getD i db = f (l.getD i da) := by
  have hm : i < (l.map f).length := by simpa using h
  rw [List.getD_eq_getElem _ _ hm, List.getD_eq_getElem _ _ h, List.getElem_map]

theorem getD_range (n i : ℕ) (h : i < n) : (List.range n).getD i 0 = i := by
  have hr : i < (List.range n).length := by simpa using h
  rw [List.getD_eq_getElem _ _ hr, List.getElem_range]

theorem sum_map_div (l : List ℚ) (s : ℚ) : (l.map (· / s)).sum = l.sum / s := by
  induction l with
  | nil => simp
  | cons x xs ih => simp [ih, add_div]

theorem sum_pos_of_mem (l : List ℚ) (hnn : ∀ y ∈ l, 0 ≤ y) (x : ℚ) (hx : x ∈ l)
    (hpos : 0 < x) : 0 < l.sum :=
  lt_of_lt_of_le hpos (List.single_le_sum hnn x hx)

/-! Lemmas about the soft update, the argmax scans and the one-hot vectors. -/

theorem oneHot_length (n : ℕ) : ∀ i : ℕ, (oneHot n i).length = n := by
  induction n with
  | zero => intro i; cases i <;> rfl
  | succ n ih =>
    intro i
    cases i with
    | zero => simp [oneHot]
    | succ j => simp [oneHot, ih j]

theorem soft_update_one (onlineParams : List ℚ) : ∀ targetParams : List ℚ,
    targetParams.length = onlineParams.length →
    _soft_update onlineParams targetParams 1 = onlineParams := by
  induction onlineParams with
  | nil => intro t _; simp [_soft_update]
  | cons o os ih =>
    intro t ht
    cases t with
    | nil => simp at ht
    | cons x xs =>
      simp only [_soft_update, List.zipWith_cons_cons]
      have h1 : x * (1 - (1 : ℚ)) + o * 1 = o := by ring
      have h2 := ih xs (by simpa using ht)
      simp only [_soft_update] at h2
      rw [h1, h2]

theorem argmaxAux_replicate (k : ℕ) : ∀ (j bi : ℕ) (bv : ℚ), 0 ≤ bv →
    argmaxAux (List.replicate k 0) j bi bv = bi := by
  induction k with
  | zero => intro j bi bv _; rfl
  | succ k ih =>
    intro j bi bv h
    simp only [List.replicate_succ, argmaxAux]
    rw [if_neg (by linarith : ¬ bv < 0)]
    exact ih _ _ _ h

theorem argmaxAux_oneHot : ∀ (i n j bi : ℕ), i < n →
    argmaxAux (oneHot n i) j bi 0 = j + i := by
  intro i
  induction i with
  | zero =>
    intro n j bi h
    cases n with
    | zero => omega
    | succ m =>
      simp only [oneHot, argmaxAux]
      rw [if_pos (by norm_num : (0 : ℚ) < 1),
        argmaxAux_replicate m _ _ _ (by norm_num)]
      omega
  | succ i ih =>
    intro n j bi h
    cases n with
    | zero => omega
    | succ m =>
      simp only [oneHot, argmaxAux]
      rw [if_neg (lt_irrefl (0 : ℚ)), ih m (j + 1) bi (by omega)]
      omega

theorem argmaxList_oneHot (n i : ℕ) (h : i < n) : argmaxList (oneHot n i) = i := by
  cases n with
  | zero => omega
  | succ m =>
    cases i with
    | zero =>
      simp only [oneHot, argmaxList]
      exact argmaxAux_replicate m 1 0 1 (by norm_num)
    | succ j =>
      simp only [oneHot, argmaxList]
      rw [argmaxAux_oneHot j m 1 0 (by omega)]
      omega

theorem maskedArgmaxAux_replicate (k : ℕ) : ∀ (vs : List ℚ) (j : ℕ)
    (best : Option (ℕ × ℚ)), maskedArgmaxAux vs (List.replicate k 0) j best = best := by
  induction k with
  | zero => intro vs j best; cases vs <;> rfl
  | succ k ih =>
    intro vs j best
    cases vs with
    | nil => rfl
    | cons v vt =>
      simp only [List.replicate_succ, maskedArgmaxAux]
      rw [if_neg (lt_irrefl (0 : ℚ))]
      exact ih vt (j + 1) best

theorem maskedArgmaxAux_oneHot : ∀ (i n : ℕ) (vs : List ℚ) (j : ℕ), i < n →
    vs.length = n →
    maskedArgmaxAux vs (oneHot n i) j none = some (j + i, vs.getD i 0) := by
  intro i
  induction i with
  | zero =>
    intro n vs j hn hlen
    cases n with
    | zero => omega
    | succ m =>
      cases vs with
      | nil => simp at hlen
      | cons v vt =>
        simp only [oneHot, maskedArgmaxAux]
        rw [if_pos (by norm_num : (0 : ℚ) < 1),
          maskedArgmaxAux_replicate m vt (j + 1) (some (j, v))]
        simp
  | succ i ih =>
    intro n vs j hn hlen
    cases n with
    | zero => omega
    | succ m =>
      cases vs with
      | nil => simp at hlen
      | cons v vt =>
        simp only [oneHot, maskedArgmaxAux]
        rw [if_neg (lt_irrefl (0 : ℚ)), ih m vt (j + 1) (by omega) (by simpa using hlen)]
        have hadd : j + 1 + i = j + (i + 1) := by omega
        rw [hadd, List.getD_cons_succ]

theorem zipWith_mul_replicate_zero (xs : List ℚ) : ∀ k : ℕ,
    (List.zipWith (· * ·) xs (List.replicate k 0)).sum = 0 := by
  induction xs with
  | nil => intro k; simp
  | cons x xt ih =>
    intro k
    cases k with
    | zero => simp
    | succ k => simp [List.replicate_succ, ih k]

theorem dotList_oneHot : ∀ (i n : ℕ) (t : List ℚ), i < n → t.length = n →
    dotList t (oneHot n i) = t.getD i 0 := by
  intro i
  induction i with
  | zero =>
    intro n t hn hlen
    cases n with
    | zero => omega
    | succ m =>
      cases t with
      | nil => simp at hlen
      | cons x xs =>
        simp only [oneHot, dotList, List.zipWith_cons_cons, List.sum_cons]
        rw [zipWith_mul_replicate_zero xs m]
        simp
  | succ i ih =>
    intro n t hn hlen
    cases n with
    | zero => omega
    | succ m =>
      cases t with
      | nil => simp at hlen
      | cons x xs =>
        simp only [oneHot, dotList, List.zipWith_cons_cons, List.sum_cons]
        have := ih m xs (by omega) (by simpa using hlen)
        simp only [dotList] at this
        rw [this]
        simp

/-! Lemmas about the masked softmax weights. -/

theorem maskedSoftmax_weights_nonneg (expf : ℚ → ℚ) (T : ℚ)
    (hexp : ∀ x, 0 < expf x) : ∀ (vals mask : List ℚ), (∀ x ∈ mask, x = 0 ∨ x = 1) →
    ∀ y ∈ List.zipWith (fun v m => m * expf (v / T)) vals mask, 0 ≤ y := by
  intro vals
  induction vals with
  | nil => intro mask _ y hy; simp at hy
  | cons v vt ih =>
    intro mask hbin y hy
    cases mask with
    | nil => simp at hy
    | cons m mt =>
      simp only [List.zipWith_cons_cons, List.mem_cons] at hy
      rcases hy with hy | hy
      · rcases hbin m (by simp) with h0 | h1
        · rw [hy, h0, zero_mul]
        · rw [hy, h1, one_mul]
          exact le_of_lt (hexp _)
      · exact ih mt (fun x hx => hbin x (by simp [hx])) y hy

theorem maskedSoftmax_weights_pos_at (expf : ℚ → ℚ) (T : ℚ)
    (hexp : ∀ x, 0 < expf x) : ∀ (vals mask : List ℚ) (j : ℕ),
    vals.length = mask.length → j < mask.length → mask.getD j 0 = 1 →
    0 < (List.zipWith (fun v m => m * expf (v / T)) vals mask).getD j 0 := by
  intro vals
  induction vals with
  | nil => intro mask j hlen hj _; rw [← hlen] at hj; simp at hj
  | cons v vt ih =>
    intro mask j hlen hj hj1
    cases mask with
    | nil => simp at hj
    | cons m mt =>
      cases j with
      | zero =>
        simp only [List.getD_cons_zero] at hj1
        simp only [List.zipWith_cons_cons, List.getD_cons_zero, hj1, one_mul]
        exact hexp _
      | succ j =>
        simp only [List.getD_cons_succ] at hj1
        simp only [List.zipWith_cons_cons, List.getD_cons_succ]
        exact ih mt j (by simpa using hlen) (by simpa using hj) hj1

theorem maskedSoftmax_sum_one (expf : ℚ → ℚ) (vals mask : List ℚ) (T : ℚ)
    (hexp : ∀ x, 0 < expf x) (hlen : vals.length = mask.length)
    (hbin : ∀ x ∈ mask, x = 0 ∨ x = 1)
    (j : ℕ) (hj : j < mask.length) (hj1 : mask.getD j 0 = 1) :
    (maskedSoftmax expf vals mask T).sum = 1 := by
  have hms : maskedSoftmax expf vals mask T =
      (List.zipWith (fun v m => m * expf (v / T)) vals mask).map
        (· / (List.zipWith (fun v m => m * expf (v / T)) vals mask).sum) := rfl
  rw [hms, sum_map_div]
  have hwlen : (List.zipWith (fun v m => m * expf (v / T)) vals mask).length =
      mask.length := by
    rw [List.length_zipWith]; omega
  have hjw : j < (List.zipWith (fun v m => m * expf (v / T)) vals mask).length := by
    omega
  have hpos := maskedSoftmax_weights_pos_at expf T hexp vals mask j hlen hj hj1
  have hmem : (List.zipWith (fun v m => m * expf (v / T)) vals mask).getD j 0 ∈
      List.zipWith (fun v m => m * expf (v / T)) vals mask := by
    rw [List.getD_eq_getElem _ _ hjw]
    exact List.getElem_mem hjw
  have hsum : 0 < (List.zipWith (fun v m => m * expf (v / T)) vals mask).sum :=
    sum_pos_of_mem _ (maskedSoftmax_weights_nonneg expf T hexp vals mask hbin) _ hmem hpos
  exact div_self (ne_of_gt hsum)

theorem maskedSoftmax_zero (expf : ℚ → ℚ) (vals mask : List ℚ) (T : ℚ) (j : ℕ)
    (hj0 : mask.getD j 0 = 0) : (maskedSoftmax expf vals mask T).getD j 0 = 0 := by
  have hms : maskedSoftmax expf vals mask T =
      (List.zipWith (fun v m => m * expf (v / T)) vals mask).map
        (· / (List.zipWith (fun v m => m * expf (v / T)) vals mask).sum) := rfl
  rw [hms]
  by_cases hjw : j < (List.zipWith (fun v m => m * expf (v / T)) vals mask).length
  · have hjv : j < vals.length := by rw [List.length_zipWith] at hjw; omega
    have hjm : j < mask.length := by rw [List.length_zipWith] at hjw; omega
    rw [getD_map _ _ _ 0 _ hjw, getD_zipWith _ vals mask j 0 0 0 hjv hjm]
    simp only [hj0, zero_mul, zero_div]
  · have h1 : (List.zipWith (fun v m => m * expf (v / T)) vals mask).length ≤ j :=
      Nat.le_of_not_lt hjw
    have h2 : ((List.zipWith (fun v m => m * expf (v / T)) vals mask).map
        (· / (List.zipWith (fun v m => m * expf (v / T)) vals mask).sum)).length ≤ j := by
      rw [List.length_map]; exact h1
    rw [List.getD_eq_default _ _ h2]

/-! Claim theorems. -/

/-- C2: for every training batch, when the step counter is below the
configured burn-in threshold the constructed target equals the shaped
reward exactly, regardless of next-state values; otherwise the target
equals shaped reward + gamma * next_state_value * not_terminal, with the
next-state value zeroed for terminal transitions. -/
theorem claim_c2_burnin_target (mb burnin : ℕ) (gamma : ℚ)
    (rewards nextQValues notDoneMask : List ℚ) (i : ℕ)
    (h1 : i < rewards.length) (h2 : i < nextQValues.length)
    (h3 : i < notDoneMask.length) :
    (target_q_values mb burnin gamma rewards nextQValues notDoneMask).getD i 0 =
      if mb < burnin then rewards.getD i 0
      else rewards.getD i 0 + gamma * (nextQValues.getD i 0 * notDoneMask.getD i 0) := by
  by_cases hb : mb < burnin
  · simp [target_q_values, hb]
  · simp only [target_q_values, if_neg hb]
    rw [getD_zipWith _ rewards _ i 0 0 0 h1 (by rw [List.length_zipWith]; omega),
      getD_zipWith _ nextQValues notDoneMask i 0 0 0 h2 h3]

/-- Witness for C2 at a concrete input, in both regimes of the step
counter. -/
theorem claim_c2_burnin_target_witness :
    ((target_q_values 5 3 (1 / 2) [2] [4] [1]).getD 0 0 =
      if 5 < 3 then List.getD [2] 0 0
      else List.getD [2] 0 0 + 1 / 2 * (List.getD [4] 0 0 * List.getD [1] 0 0)) ∧
    ((target_q_values 1 3 (1 / 2) [2] [4] [1]).getD 0 0 =
      if 1 < 3 then List.getD [2] 0 0
      else List.getD [2] 0 0 + 1 / 2 * (List.getD [4] 0 0 * List.getD [1] 0 0)) :=
  ⟨claim_c2_burnin_target 5 3 (1 / 2) [2] [4] [1] 0 (by norm_num) (by norm_num)
      (by norm_num),
   claim_c2_burnin_target 1 3 (1 / 2) [2] [4] [1] 0 (by norm_num) (by norm_num)
      (by norm_num)⟩

/-- C3: in on-policy (SARSA) mode, for a one-hot next action the masked
max-with-target selection path that the implementation reuses returns
exactly the on-policy semantics worded by the spec: the inner product of
the target-network value vector with the one-hot, and the argmax of the
one-hot as the selected index. -/
theorem claim_c3_on_policy_selector (n i : ℕ) (qValues qValuesTarget : List ℚ)
    (hi : i < n) (hq : qValues.length = n) (ht : qValuesTarget.length = n) :
    get_max_q_values_with_target qValues qValuesTarget (oneHot n i) =
      some (onPolicySpecValue qValuesTarget (oneHot n i)) ∧
    onPolicySpecValue qValuesTarget (oneHot n i) = (qValuesTarget.getD i 0, i) := by
  have hsel := maskedArgmaxAux_oneHot i n qValues 0 hi hq
  have hdot := dotList_oneHot i n qValuesTarget hi ht
  have harg := argmaxList_oneHot n i hi
  constructor
  · simp only [get_max_q_values_with_target, hsel, onPolicySpecValue, hdot, harg]
    norm_num
  · simp only [onPolicySpecValue, hdot, harg]

/-- Witness for C3: action set of width 2, next action one-hot at index 1,
online row [5, 0], target row [3, 4]; the selector returns the target value
4 at index 1 even though the online row prefers index 0. -/
theorem claim_c3_on_policy_selector_witness :
    get_max_q_values_with_target [5, 0] [3, 4] (oneHot 2 1) =
      some (onPolicySpecValue [3, 4] (oneHot 2 1)) ∧
    onPolicySpecValue [3, 4] (oneHot 2 1) = ((4 : ℚ), 1) :=
  claim_c3_on_policy_selector 2 1 [5, 0] [3, 4] (by norm_num) rfl rfl

/-- C7: the shaped reward equals the raw reward plus the configured boost
of the one-hot action taken, leaving rewards of unboosted actions
unchanged; for action set A, B, C with boost 2.0 on B, raw reward 1.0
taking B yields 3.0 while taking A or C yields 1.0. -/
theorem claim_c7_reward_boost (rewardBoosts : List ℚ) (reward : ℚ) (n i : ℕ)
    (hi : i < n) (hb : rewardBoosts.length = n) :
    boost_rewards rewardBoosts reward (oneHot n i) =
      reward + rewardBoosts.getD i 0 ∧
    computeRewardBoosts ["A", "B", "C"] (List.replicate 3 0) [("B", 2)] =
      .ok [0, 2, 0] ∧
    boost_rewards [0, 2, 0] 1 (oneHot 3 1) = 3 ∧
    boost_rewards [0, 2, 0] 1 (oneHot 3 0) = 1 ∧
    boost_rewards [0, 2, 0] 1 (oneHot 3 2) = 1 := by
  refine ⟨?_, rfl, by norm_num [boost_rewards, dotList, oneHot, List.replicate],
    by norm_num [boost_rewards, dotList, oneHot, List.replicate],
    by norm_num [boost_rewards, dotList, oneHot, List.replicate]⟩
  unfold boost_rewards
  rw [dotList_oneHot i n rewardBoosts hi hb]

/-- Concrete single-action backend used by witnesses and counterexamples:
each network's value row is its parameter list (ignoring the state), each
optimizer step adds one to every parameter, and the exponential primitive
is the constant one function. -/
def egBackend : Backend :=
  ⟨fun p _ => p, fun p _ => p, fun p _ => p.map (· + 1), fun p _ => p.map (· + 1),
   fun p _ => p.map (· + 1), fun _ => 1⟩

/-- Concrete configuration with CPE disabled. -/
def egConfig : Config := ⟨["A"], 0, 0, 0, true, false, 1, 1, []⟩

/-- Concrete configuration with CPE enabled. -/
def egConfigCpe : Config := ⟨["A"], 0, 0, 0, true, true, 1, 1, []⟩

/-- Concrete configuration whose reward boost names an action that is not
in the action set. -/
def egConfigBadBoost : Config := ⟨["A"], 0, 0, 0, true, false, 1, 1, [("Z", 2)]⟩

/-- Concrete trainer state over the single-action backend. -/
def egState : TrainerState := ⟨0, [0], [0], [0], [0], [0], [0], [[0]]⟩

/-- Concrete one-sample batch entry over a single action. -/
def egSample : Sample := ⟨0, [1], 0, 0, [1], 1, [1], [1], none, 1⟩

/-- Witness for C7 at the concrete boosted configuration of the claim. -/
theorem claim_c7_reward_boost_witness :
    (boost_rewards [0, 2, 0] 1 (oneHot 3 1) =
      1 + List.getD [0, 2, 0] 1 0 ∧
    computeRewardBoosts ["A", "B", "C"] (List.replicate 3 0) [("B", 2)] =
      .ok [0, 2, 0] ∧
    boost_rewards [0, 2, 0] 1 (oneHot 3 1) = 3 ∧
    boost_rewards [0, 2, 0] 1 (oneHot 3 0) = 1 ∧
    boost_rewards [0, 2, 0] 1 (oneHot 3 2) = 1) :=
  claim_c7_reward_boost [0, 2, 0] 1 3 1 (by norm_num) rfl

/-- C1 (counterexample to the claim as stated): the detached current-state
action-value snapshot that the CPE subsystem reads is computed at lines
138-140, before the optimizer step at line 150, so it does not reflect the
updated primary network: with a CPE-enabled configuration and a backend
whose forward pass returns the parameters themselves and whose optimizer
step adds one to each parameter, the stored snapshot differs from the
forward pass of the post-step parameters. -/
theorem claim_c1_counterexample :
    ¬ ((trainBatch egConfigCpe egBackend egState [egSample]).1.allActionScores =
      [egSample].map (fun s => egBackend.forward
        ((trainBatch egConfigCpe egBackend egState [egSample]).1.qParams) s.state)) := by
  intro h
  have h' : ([[(0 : ℚ)]] : List (List ℚ)) = [[(1 : ℚ)]] := by
    have e1 : (trainBatch egConfigCpe egBackend egState [egSample]).1.allActionScores =
        [[(0 : ℚ)]] := by
      norm_num [trainBatch, calculate_cpes, get_detached_q_values, boost_rewards,
        dotList, target_q_values, _soft_update, get_max_q_values_with_target,
        maskedArgmaxAux, argmaxList, argmaxAux, egConfigCpe, egBackend, egState,
        egSample]
    have e2 : [egSample].map (fun s => egBackend.forward
        ((trainBatch egConfigCpe egBackend egState [egSample]).1.qParams) s.state) =
        [[(1 : ℚ)]] := by
      norm_num [trainBatch, calculate_cpes, get_detached_q_values, boost_rewards,
        dotList, target_q_values, _soft_update, get_max_q_values_with_target,
        maskedArgmaxAux, argmaxList, argmaxAux, egConfigCpe, egBackend, egState,
        egSample]
    rw [← e1, ← e2]
    exact h
  have h0 : (0 : ℚ) = 1 := by
    have hg := congrArg (fun l => (l.getD 0 []).getD 0 0) h'
    simp at hg
  norm_num at h0

/-- C1 (amended): the detached current-state action-value snapshot that the
CPE subsystem reads is computed from the primary network as it stands
before the backward pass, optimizer step and soft update of the current
step; CPE reads it only after those updates complete, so the propensities
and model-values reflect the pre-update primary network of the current
step. -/
theorem claim_c1_snapshot_preupdate (cfg : Config) (be : Backend)
    (st : TrainerState) (batch : List Sample) :
    (trainBatch cfg be st batch).1.allActionScores =
      batch.map (fun s => be.forward st.qParams s.state) := by
  cases hc : cfg.calcCpe <;> simp [trainBatch, calculate_cpes, hc]

/-- C4: after every training step (with CPE enabled so that both network
pairs take part), each target network's parameters equal the soft update
target_param * (1 - tau) + online_param * tau of their previous value with
the online network's current (post-optimizer-step) value, where tau is
forced to 1.0 while the step counter is below the burn-in threshold and is
the configured tau otherwise; and a soft update with tau = 1 makes the
target parameters identical to the online parameters.  The target
parameters are produced by _soft_update alone, never by an optimizer
step. -/
theorem claim_c4_soft_update (cfg : Config) (be : Backend) (st : TrainerState)
    (batch : List Sample) (hcpe : cfg.calcCpe = true) :
    ((trainBatch cfg be st batch).1.qTargetParams =
      _soft_update ((trainBatch cfg be st batch).1.qParams) st.qTargetParams
        (if st.minibatch + 1 < cfg.rewardBurnin then 1 else cfg.tau)) ∧
    ((trainBatch cfg be st batch).1.cpeTargetParams =
      _soft_update ((trainBatch cfg be st batch).1.cpeParams) st.cpeTargetParams
        (if st.minibatch + 1 < cfg.rewardBurnin then 1 else cfg.tau)) ∧
    (∀ onlineParams targetParams : List ℚ,
      targetParams.length = onlineParams.length →
      _soft_update onlineParams targetParams 1 = onlineParams) := by
  refine ⟨?_, ?_, fun a b h => soft_update_one a b h⟩ <;>
    simp [trainBatch, calculate_cpes, hcpe]

/-- Witness for C4 at a concrete CPE-enabled input. -/
theorem claim_c4_soft_update_witness :
    ((trainBatch egConfigCpe egBackend egState [egSample]).1.qTargetParams =
      _soft_update ((trainBatch egConfigCpe egBackend egState [egSample]).1.qParams)
        egState.qTargetParams
        (if egState.minibatch + 1 < egConfigCpe.rewardBurnin then 1
         else egConfigCpe.tau)) ∧
    ((trainBatch egConfigCpe egBackend egState [egSample]).1.cpeTargetParams =
      _soft_update ((trainBatch egConfigCpe egBackend egState [egSample]).1.cpeParams)
        egState.cpeTargetParams
        (if egState.minibatch + 1 < egConfigCpe.rewardBurnin then 1
         else egConfigCpe.tau)) ∧
    (∀ onlineParams targetParams : List ℚ,
      targetParams.length = onlineParams.length →
      _soft_update onlineParams targetParams 1 = onlineParams) :=
  claim_c4_soft_update egConfigCpe egBackend egState [egSample] rfl

/-- C9: when CPE is disabled in the configuration, calculate_cpes returns
(none, none, none) for every input batch and leaves the trainer state,
including the CPE reward, value and target network parameters, completely
unchanged. -/
theorem claim_c9_cpe_disabled (cfg : Config) (be : Backend) (st : TrainerState)
    (batch : List Sample) (loggedActionIdxs maxQActionIdxs : List ℕ)
    (discount : ℚ) (notDoneMask : List ℚ) (h : cfg.calcCpe = false) :
    calculate_cpes cfg be st batch loggedActionIdxs maxQActionIdxs discount
      notDoneMask = ((none, none, none), st) := by
  simp [calculate_cpes, h]

/-- Witness for C9 at a concrete CPE-disabled input. -/
theorem claim_c9_cpe_disabled_witness :
    calculate_cpes egConfig egBackend egState [egSample] [0] [0] 0 [1] =
      ((none, none, none), egState) :=
  claim_c9_cpe_disabled egConfig egBackend egState [egSample] [0] [0] 0 [1] rfl

/-- C10: the train entry point accepts either a raw TrainingDataPage or an
already-converted discrete-SARSA batch, and training on a page performs
exactly the same computation and state mutation as training on its
conversion through as_discrete_sarsa_training_batch. -/
theorem claim_c10_page_dispatch {page : Type}
    (asDiscreteSarsaTrainingBatch : page → List Sample) (cfg : Config)
    (be : Backend) (st : TrainerState) (p : page) :
    train asDiscreteSarsaTrainingBatch cfg be st (TrainInput.page p) =
      train asDiscreteSarsaTrainingBatch cfg be st
        (TrainInput.batch (asDiscreteSarsaTrainingBatch p)) := rfl

theorem rewardIdxOffsets_length (numActions numMetrics : ℕ) :
    (rewardIdxOffsets numActions numMetrics).length = numMetrics := by
  simp [rewardIdxOffsets]

theorem rewardIdxOffsets_getD (numActions numMetrics m : ℕ) (hm : m < numMetrics) :
    (rewardIdxOffsets numActions numMetrics).getD m 0 = m * numActions := by
  unfold rewardIdxOffsets
  rw [getD_map _ _ _ 0 _ (by simpa using hm), getD_range numMetrics m hm]

theorem gatherAtOffsets_length (numActions numMetrics : ℕ) (row : List ℚ) (idx : ℕ) :
    (gatherAtOffsets numActions numMetrics row idx).length = numMetrics := by
  simp [gatherAtOffsets, rewardIdxOffsets]

theorem gatherAtOffsets_getD (numActions numMetrics : ℕ) (row : List ℚ)
    (idx m : ℕ) (hm : m < numMetrics) :
    (gatherAtOffsets numActions numMetrics row idx).getD m 0 =
      row.getD (m * numActions + idx) 0 := by
  unfold gatherAtOffsets
  rw [getD_map _ _ _ 0 _ (by rw [rewardIdxOffsets_length]; omega),
    rewardIdxOffsets_getD numActions numMetrics m hm]

/-- C5: in CPE value-model training the per-metric bootstrap value is
gathered from the CPE target network's estimates on the current state at
index metric_offset[m] + selected_next_action_index, reusing the single
selected action index unchanged across all metrics, and the per-metric
target follows the same burn-in-aware construction as the primary target:
reward only below burn-in, reward + discount * masked bootstrap
otherwise.  The first conjunct ties calculate_cpes to exactly this target
pipeline (the targets feed the CPE optimizer step); the second
characterizes every entry of the pipeline pointwise. -/
theorem claim_c5_cpe_metric_targets
    (cfg : Config) (be : Backend) (st : TrainerState) (batch : List Sample)
    (loggedActionIdxs maxQActionIdxs : List ℕ) (discount : ℚ)
    (notDoneMask : List ℚ) (hcpe : cfg.calcCpe = true)
    (mb burnin : ℕ) (gamma : ℚ) (numActions numMetrics : ℕ)
    (metricsRewardConcat metricTargetQValues : List (List ℚ))
    (idxs : List ℕ) (nd : List ℚ) (i m : ℕ)
    (hi1 : i < metricsRewardConcat.length) (hi2 : i < metricTargetQValues.length)
    (hi3 : i < idxs.length) (hi4 : i < nd.length)
    (hm : m < numMetrics) (hrow : m < (metricsRewardConcat.getD i []).length) :
    ((calculate_cpes cfg be st batch loggedActionIdxs maxQActionIdxs discount
        notDoneMask).2.cpeParams =
      be.cpeOptStep st.cpeParams
        (cpeMetricTargets st.minibatch cfg.rewardBurnin discount
          cfg.actions.length cfg.numMetrics (batch.map metricsConcatOf)
          (batch.map (fun s => be.cpeForward st.cpeTargetParams s.state))
          maxQActionIdxs notDoneMask).flatten) ∧
    (((cpeMetricTargets mb burnin gamma numActions numMetrics metricsRewardConcat
        metricTargetQValues idxs nd).getD i []).getD m 0 =
      if mb < burnin then (metricsRewardConcat.getD i []).getD m 0
      else (metricsRewardConcat.getD i []).getD m 0 +
        gamma * ((metricTargetQValues.getD i []).getD
          (m * numActions + idxs.getD i 0) 0 * nd.getD i 0)) := by
  constructor
  · simp [calculate_cpes, hcpe]
  · by_cases hb : mb < burnin
    · simp [cpeMetricTargets, hb]
    · have hmaxlen : i < (List.zipWith (gatherAtOffsets numActions numMetrics)
          metricTargetQValues idxs).length := by
        rw [List.length_zipWith]; omega
      have hfiltlen : i < (List.zipWith (fun row n => row.map (· * n))
          (List.zipWith (gatherAtOffsets numActions numMetrics)
            metricTargetQValues idxs) nd).length := by
        rw [List.length_zipWith, List.length_zipWith]; omega
      simp only [cpeMetricTargets, if_neg hb]
      rw [getD_zipWith (List.zipWith (fun r f => r + gamma * f))
        metricsRewardConcat _ i [] [] [] hi1 hfiltlen]
      rw [getD_zipWith (fun row n => row.map (· * n)) _ nd i [] 0 [] hmaxlen hi4]
      rw [getD_zipWith (gatherAtOffsets numActions numMetrics)
        metricTargetQValues idxs i [] 0 [] hi2 hi3]
      rw [getD_zipWith (fun r f => r + gamma * f) _ _ m 0 0 0 hrow
        (by rw [List.length_map, gatherAtOffsets_length]; omega)]
      rw [getD_map (· * nd.getD i 0) _ m 0 0 (by rw [gatherAtOffsets_length]; omega)]
      rw [gatherAtOffsets_getD numActions numMetrics _ _ m hm]

/-- Witness for C5: CPE-enabled concrete trainer plus a concrete pointwise
evaluation of the per-metric target pipeline with two metrics and two
actions. -/
theorem claim_c5_cpe_metric_targets_witness :
    ((calculate_cpes egConfigCpe egBackend egState [egSample] [0] [0] 0
        [1]).2.cpeParams =
      egBackend.cpeOptStep egState.cpeParams
        (cpeMetricTargets egState.minibatch egConfigCpe.rewardBurnin 0
          egConfigCpe.actions.length egConfigCpe.numMetrics
          ([egSample].map metricsConcatOf)
          ([egSample].map (fun s => egBackend.cpeForward egState.cpeTargetParams
            s.state))
          [0] [1]).flatten) ∧
    (((cpeMetricTargets 5 3 (1 / 2) 2 2 [[1, 10]] [[3, 4, 5, 6]] [1] [1]).getD 0
        []).getD 1 0 =
      if 5 < 3 then (List.getD [[(1 : ℚ), 10]] 0 []).getD 1 0
      else (List.getD [[(1 : ℚ), 10]] 0 []).getD 1 0 +
        1 / 2 * ((List.getD [[(3 : ℚ), 4, 5, 6]] 0 []).getD
          (1 * 2 + List.getD [1] 0 0) 0 * List.getD [(1 : ℚ)] 0 0)) :=
  claim_c5_cpe_metric_targets egConfigCpe egBackend egState [egSample] [0] [0] 0
    [1] rfl 5 3 (1 / 2) 2 2 [[1, 10]] [[3, 4, 5, 6]] [1] [1] 0 1
    (by norm_num) (by norm_num) (by norm_num) (by norm_num) (by norm_num)
    (by norm_num)

/-- C6: for every batch and temperature > 0, the model-propensity rows
returned by CPE are the masked softmax of the detached primary-network
current-state values under the mode-appropriate validity mask
(possible_actions_mask in max-action mode, the taken-action one-hot in
on-policy mode): on each sample with at least one valid action the
propensities sum to 1 and are exactly 0 on every invalid action. -/
theorem claim_c6_propensities
    (cfg : Config) (be : Backend) (st : TrainerState) (batch : List Sample)
    (loggedActionIdxs maxQActionIdxs : List ℕ) (discount : ℚ)
    (notDoneMask : List ℚ) (i : ℕ)
    (hcpe : cfg.calcCpe = true) (_hT : 0 < cfg.rlTemperature)
    (hexp : ∀ x, 0 < be.expf x)
    (hi1 : i < st.allActionScores.length) (hi2 : i < batch.length)
    (hlen : (st.allActionScores.getD i []).length =
      (validityMask cfg (batch.getD i default)).length)
    (hbin : ∀ x ∈ validityMask cfg (batch.getD i default), x = 0 ∨ x = 1)
    (j : ℕ) (hj : j < (validityMask cfg (batch.getD i default)).length)
    (hj1 : (validityMask cfg (batch.getD i default)).getD j 0 = 1) :
    ∃ P, (calculate_cpes cfg be st batch loggedActionIdxs maxQActionIdxs discount
        notDoneMask).1.2.2 = some P ∧
      P.getD i [] = maskedSoftmax be.expf (st.allActionScores.getD i [])
        (validityMask cfg (batch.getD i default)) cfg.rlTemperature ∧
      (P.getD i []).sum = 1 ∧
      (∀ k, (validityMask cfg (batch.getD i default)).getD k 0 = 0 →
        (P.getD i []).getD k 0 = 0) := by
  refine ⟨List.zipWith (fun scores s => maskedSoftmax be.expf scores
    (validityMask cfg s) cfg.rlTemperature) st.allActionScores batch, ?_, ?_, ?_, ?_⟩
  · simp [calculate_cpes, hcpe]
  · exact getD_zipWith _ st.allActionScores batch i [] default [] hi1 hi2
  · rw [getD_zipWith _ st.allActionScores batch i [] default [] hi1 hi2]
    exact maskedSoftmax_sum_one be.expf _ _ _ hexp hlen hbin j hj hj1
  · intro k hk
    rw [getD_zipWith _ st.allActionScores batch i [] default [] hi1 hi2]
    exact maskedSoftmax_zero be.expf _ _ _ k hk

/-- Witness for C6 at the concrete CPE-enabled single-action trainer. -/
theorem claim_c6_propensities_witness :
    ∃ P, (calculate_cpes egConfigCpe egBackend egState [egSample] [0] [0] 0
        [1]).1.2.2 = some P ∧
      P.getD 0 [] = maskedSoftmax egBackend.expf (egState.allActionScores.getD 0 [])
        (validityMask egConfigCpe (List.getD [egSample] 0 default))
        egConfigCpe.rlTemperature ∧
      (P.getD 0 []).sum = 1 ∧
      (∀ k, (validityMask egConfigCpe (List.getD [egSample] 0 default)).getD k 0 = 0 →
        (P.getD 0 []).getD k 0 = 0) :=
  claim_c6_propensities egConfigCpe egBackend egState [egSample] [0] [0] 0 [1] 0
    rfl (by norm_num [egConfigCpe]) (fun x => by norm_num [egBackend])
    (by norm_num [egState]) (by norm_num)
    (by simp [egState, validityMask, egConfigCpe, egSample])
    (by intro x hx; simp [validityMask, egConfigCpe, egSample] at hx; right; exact hx)
    0 (by simp [validityMask, egConfigCpe, egSample])
    (by simp [validityMask, egConfigCpe, egSample])

/-! Lemmas for the construction-time configuration errors. -/

theorem indexOfAction_eq_none (l : List String) (k : String) (h : k ∉ l) :
    indexOfAction l k = none := by
  induction l with
  | nil => rfl
  | cons a rest ih =>
    have hak : ¬ a = k := fun he => h (he ▸ List.mem_cons_self a rest)
    simp only [indexOfAction, if_neg hak,
      ih (fun hm => h (List.mem_cons_of_mem a hm)), Option.map_none']

theorem computeRewardBoosts_missing (actions : List String) (k : String) (v : ℚ) :
    ∀ (boost : List (String × ℚ)) (acc : List ℚ), (k, v) ∈ boost → k ∉ actions →
    ∃ e, computeRewardBoosts actions acc boost = .error e := by
  intro boost
  induction boost with
  | nil => intro acc hm _; simp at hm
  | cons p rest ih =>
    intro acc hm hk
    obtain ⟨k1, v1⟩ := p
    rcases List.mem_cons.mp hm with he | ht
    · injection he with h1 _
      subst h1
      exact ⟨"is not in list: " ++ k,
        by simp only [computeRewardBoosts, indexOfAction_eq_none actions k hk]⟩
    · cases hidx : indexOfAction actions k1 with
      | none =>
        exact ⟨"is not in list: " ++ k1, by simp only [computeRewardBoosts, hidx]⟩
      | some idx =>
        obtain ⟨e, he⟩ := ih (acc.set idx v1) ht hk
        exact ⟨e, by simp only [computeRewardBoosts, hidx, he]⟩

/-- C8: both configuration errors — CPE enabled without all three auxiliary
networks supplied, and a reward-boost entry naming an action absent from
the action set — are raised by the trainer constructor; the training step
itself is a total function of the constructed state and raises neither. -/
theorem claim_c8_construction_errors :
    (∀ (cfg : Config) (qP qTP : List ℚ) (rewardP cpeP cpeTargetP : Option (List ℚ)),
      cfg.calcCpe = true →
      (rewardP = none ∨ cpeP = none ∨ cpeTargetP = none) →
      ∃ e, initTrainer cfg qP qTP rewardP cpeP cpeTargetP = .error e) ∧
    (∀ (cfg : Config) (qP qTP : List ℚ) (rewardP cpeP cpeTargetP : Option (List ℚ))
      (k : String) (v : ℚ), (k, v) ∈ cfg.rewardBoost → k ∉ cfg.actions →
      ∃ e, initTrainer cfg qP qTP rewardP cpeP cpeTargetP = .error e) := by
  constructor
  · intro cfg qP qTP rewardP cpeP cpeTargetP hcpe hmissing
    rcases hmissing with h | h | h
    · subst h
      exact ⟨"reward_network is required for CPE",
        by simp [initTrainer, checkCpeNetworks, hcpe]⟩
    · subst h
      cases rewardP with
      | none =>
        exact ⟨"reward_network is required for CPE",
          by simp [initTrainer, checkCpeNetworks, hcpe]⟩
      | some r =>
        exact ⟨"q_network_cpe and q_network_cpe_target are required for CPE",
          by simp [initTrainer, checkCpeNetworks, hcpe]⟩
    · subst h
      cases rewardP with
      | none =>
        exact ⟨"reward_network is required for CPE",
          by simp [initTrainer, checkCpeNetworks, hcpe]⟩
      | some r =>
        cases cpeP with
        | none =>
          exact ⟨"q_network_cpe and q_network_cpe_target are required for CPE",
            by simp [initTrainer, checkCpeNetworks, hcpe]⟩
        | some c =>
          exact ⟨"q_network_cpe and q_network_cpe_target are required for CPE",
            by simp [initTrainer, checkCpeNetworks, hcpe]⟩
  · intro cfg qP qTP rewardP cpeP cpeTargetP k v hmem hnot
    cases hc : checkCpeNetworks cfg rewardP cpeP cpeTargetP with
    | error e => exact ⟨e, by simp [initTrainer, hc]⟩
    | ok u =>
      obtain ⟨e, he⟩ := computeRewardBoosts_missing cfg.actions k v cfg.rewardBoost
        (List.replicate cfg.actions.length 0) hmem hnot
      exact ⟨e, by simp [initTrainer, hc, he]⟩

/-- Witness for C8: a CPE-enabled construction with no auxiliary networks
fails, and a construction whose reward boost names the absent action Z
fails. -/
theorem claim_c8_construction_errors_witness :
    (∃ e, initTrainer egConfigCpe [] [] none none none = .error e) ∧
    (∃ e, initTrainer egConfigBadBoost [] [] none none none = .error e) :=
  ⟨claim_c8_construction_errors.1 egConfigCpe [] [] none none none rfl
      (Or.inl rfl),
   claim_c8_construction_errors.2 egConfigBadBoost [] [] none none none "Z" 2
      (List.mem_singleton.mpr rfl) (by decide)⟩

end HorizonDQN
